import Mathlib

/-!
# Verification of the property-listing enrichment pipeline

Shallow embedding of the text-normalization, response-parsing,
title-selection, model-client and orchestration logic of the
`django_llm` repository (files `gemini/gemini_service.py` and
`property/management/commands/rewrite_properties.py`).

Strings are modelled as `List Char`; Python integers as `Int`;
fallible code as `Except`.  Python-specific primitive behaviours
(negative slice bounds, `str.split`, `str.strip`, regular-expression
scans) are embedded as explicit recursive functions mirroring CPython
semantics on the character sets the program manipulates.
-/

deriving instance DecidableEq for Except

namespace DjangoLLM

/-- Python whitespace class `\s` = `[ \t\n\r\f\v]` (ASCII fragment used
by `str.split()`, `str.strip()` and the `\s*` regex piece). -/
def isPySpace (c : Char) : Bool :=
  c = ' ' || c = '\t' || c = '\n' || c = '\r' || c = '\x0b' || c = '\x0c'

/-- Python slice `s[:m]`: a negative stop counts from the end,
clamped at zero. -/
def pyTake (s : List Char) (m : Int) : List Char :=
  if 0 ≤ m then s.take m.toNat else s.take (s.length - (-m).toNat)

/-- Python `str.split(sep)` for a one-character separator: keeps empty
segments, `"".split(sep) == [""]`. -/
def splitOnChar (sep : Char) : List Char → List (List Char)
  | [] => [[]]
  | c :: rest =>
    let parts := splitOnChar sep rest
    if c = sep then [] :: parts
    else
      match parts with
      | [] => [[c]]
      | w :: ws => (c :: w) :: ws

/-- Python `sep.join(parts)` for list-of-chars separators. -/
def joinSep (sep : List Char) : List (List Char) → List Char
  | [] => []
  | [w] => w
  | w :: x :: ws => w ++ sep ++ joinSep sep (x :: ws)

/-- Helper for `pySplitWs`: accumulates the current word reversed. -/
def pySplitWsAux : List Char → List Char → List (List Char)
  | [], acc => if acc.isEmpty then [] else [acc.reverse]
  | c :: rest, acc =>
    if isPySpace c then
      if acc.isEmpty then pySplitWsAux rest []
      else acc.reverse :: pySplitWsAux rest []
    else pySplitWsAux rest (c :: acc)

/-- Python `str.split()` with no argument: splits on whitespace runs and
discards empty tokens. -/
def pySplitWs (l : List Char) : List (List Char) :=
  pySplitWsAux l []

/-- Python `str.strip()`. -/
def pyStrip (l : List Char) : List Char :=
  ((l.dropWhile isPySpace).reverse.dropWhile isPySpace).reverse

/-- The three-dot ellipsis marker appended by `truncate_text`. -/
def ellipsisChars : List Char := ['.', '.', '.']

/-- `truncate_text` from `gemini_service.py`: truncate to `max_length`,
optionally reserving three characters for an ellipsis, preferring a
sentence break (last period of the allowed prefix) and otherwise a word
break (drop the last, possibly partial, whitespace-separated token). -/
def truncate_text (text : List Char) (max_length : Int)
    (add_ellipsis : Bool := true) : List Char :=
  if (text.length : Int) ≤ max_length then text
  else
    let budget : Int := if add_ellipsis then max_length - 3 else max_length
    let pre := pyTake text budget
    let sentences := splitOnChar '.' pre
    let truncated :=
      if 1 < sentences.length then
        joinSep ['.'] sentences.dropLast ++ ['.']
      else
        joinSep [' '] (pySplitWs pre).dropLast
    if add_ellipsis then truncated ++ ellipsisChars else truncated

/-! ## Length facts about the pieces of `truncate_text` -/

theorem splitOnChar_ne_nil (sep : Char) (l : List Char) :
    splitOnChar sep l ≠ [] := by
  induction l with
  | nil => simp [splitOnChar]
  | cons c rest ih =>
    simp only [splitOnChar]
    by_cases h : c = sep
    · simp [h]
    · simp only [h, if_false]
      cases hp : splitOnChar sep rest with
      | nil => exact absurd hp ih
      | cons w ws => simp

theorem joinSep_splitOnChar (sep : Char) (l : List Char) :
    joinSep [sep] (splitOnChar sep l) = l := by
  induction l with
  | nil => simp [splitOnChar, joinSep]
  | cons c rest ih =>
    simp only [splitOnChar]
    by_cases h : c = sep
    · subst h
      simp only [if_pos rfl]
      cases hp : splitOnChar c rest with
      | nil => exact absurd hp (splitOnChar_ne_nil c rest)
      | cons w ws =>
        rw [hp] at ih
        simp [joinSep, ih]
    · simp only [h, if_false]
      cases hp : splitOnChar sep rest with
      | nil => exact absurd hp (splitOnChar_ne_nil sep rest)
      | cons w ws =>
        rw [hp] at ih
        cases ws with
        | nil => simp_all [joinSep]
        | cons x xs => simp_all [joinSep]

theorem joinSep_cons_of_ne_nil (sep w : List Char) (ws : List (List Char))
    (h : ws ≠ []) :
    joinSep sep (w :: ws) = w ++ sep ++ joinSep sep ws := by
  cases ws with
  | nil => exact absurd rfl h
  | cons x xs => rfl

theorem joinSep_append_singleton (sep : List Char) (ws : List (List Char))
    (w : List Char) (h : ws ≠ []) :
    joinSep sep (ws ++ [w]) = joinSep sep ws ++ sep ++ w := by
  induction ws with
  | nil => exact absurd rfl h
  | cons x xs ih =>
    cases xs with
    | nil => simp [joinSep]
    | cons y ys =>
      have hih := ih (by simp)
      have h1 : (x :: y :: ys) ++ [w] = x :: ((y :: ys) ++ [w]) := by simp
      rw [h1, joinSep_cons_of_ne_nil sep x ((y :: ys) ++ [w]) (by simp), hih,
        joinSep_cons_of_ne_nil sep x (y :: ys) (by simp)]
      simp [List.append_assoc]

/-- Dropping the last segment cannot lengthen a separator-join. -/
theorem joinSep_dropLast_length_le (sep : List Char) (ws : List (List Char)) :
    (joinSep sep ws.dropLast).length ≤ (joinSep sep ws).length := by
  induction ws with
  | nil => simp
  | cons x xs ih =>
    cases xs with
    | nil => simp [joinSep]
    | cons y ys =>
      have hd : (x :: y :: ys).dropLast = x :: (y :: ys).dropLast := by
        simp [List.dropLast]
      rw [hd]
      cases hys : (y :: ys).dropLast with
      | nil =>
        simp [joinSep]
      | cons z zs =>
        rw [hys] at ih
        simp only [joinSep, List.length_append]
        omega

/-- Rejoining the whitespace-split of `l` with single spaces never
exceeds the length of `l`. -/
theorem joinSep_pySplitWsAux_length (l acc : List Char) :
    (joinSep [' '] (pySplitWsAux l acc)).length ≤ l.length + acc.length := by
  induction l generalizing acc with
  | nil =>
    by_cases h : acc.isEmpty
    · simp [pySplitWsAux, h, joinSep]
    · simp [pySplitWsAux, h, joinSep]
  | cons c rest ih =>
    simp only [pySplitWsAux]
    by_cases hs : isPySpace c
    · simp only [hs, if_true]
      by_cases ha : acc.isEmpty
      · simp only [ha, if_true]
        have h1 := ih ([])
        simp only [List.length_nil, Nat.add_zero] at h1
        simp only [List.length_cons]
        omega
      · simp only [ha, Bool.false_eq_true, if_false]
        have h1 := ih ([])
        simp only [List.length_nil, Nat.add_zero] at h1
        cases hp : pySplitWsAux rest [] with
        | nil =>
          simp only [Bool.false_eq_true, if_false, joinSep,
            List.length_reverse, List.length_cons]
          omega
        | cons w ws =>
          rw [hp] at h1
          rw [joinSep_cons_of_ne_nil [' '] acc.reverse (w :: ws) (by simp)]
          simp only [List.length_append, List.length_reverse, List.length_cons,
            List.length_nil]
          omega
    · simp only [hs, Bool.false_eq_true, if_false]
      have h1 := ih (c :: acc)
      simp only [List.length_cons] at h1 ⊢
      omega

theorem joinSep_pySplitWs_length (l : List Char) :
    (joinSep [' '] (pySplitWs l)).length ≤ l.length := by
  have := joinSep_pySplitWsAux_length l []
  simpa [pySplitWs] using this

theorem pyTake_length_le_of_nonneg (s : List Char) (m : Int) (h : 0 ≤ m) :
    ((pyTake s m).length : Int) ≤ m := by
  simp only [pyTake, if_pos h]
  have h1 : (s.take m.toNat).length ≤ m.toNat := by
    simp [List.length_take]
  have h2 : (m.toNat : Int) = m := Int.toNat_of_nonneg h
  omega

/-- The sentence-or-word truncation core never exceeds the length of the
prefix it operates on. -/
theorem truncate_branch_length_le (pre : List Char) :
    (if 1 < (splitOnChar '.' pre).length then
        joinSep ['.'] (splitOnChar '.' pre).dropLast ++ ['.']
      else
        joinSep [' '] (pySplitWs pre).dropLast).length ≤ pre.length := by
  by_cases hs : 1 < (splitOnChar '.' pre).length
  · rw [if_pos hs]
    have hjoin : joinSep ['.'] (splitOnChar '.' pre) = pre :=
      joinSep_splitOnChar '.' pre
    have hne : splitOnChar '.' pre ≠ [] := splitOnChar_ne_nil '.' pre
    have hdlne : (splitOnChar '.' pre).dropLast ≠ [] := by
      intro hnil
      have h2 : (splitOnChar '.' pre).dropLast.length =
          (splitOnChar '.' pre).length - 1 := List.length_dropLast _
      rw [hnil] at h2
      simp at h2
      omega
    have hdecomp :
        (splitOnChar '.' pre).dropLast ++ [(splitOnChar '.' pre).getLast hne] =
          splitOnChar '.' pre := List.dropLast_append_getLast hne
    have hsplit :
        joinSep ['.'] ((splitOnChar '.' pre).dropLast ++
            [(splitOnChar '.' pre).getLast hne]) =
          joinSep ['.'] (splitOnChar '.' pre).dropLast ++ ['.'] ++
            (splitOnChar '.' pre).getLast hne :=
      joinSep_append_singleton ['.'] _ _ hdlne
    have hpre2 : joinSep ['.'] (splitOnChar '.' pre).dropLast ++ ['.'] ++
        (splitOnChar '.' pre).getLast hne = pre := by
      rw [← hsplit, hdecomp, hjoin]
    have hlen := congrArg List.length hpre2
    simp only [List.length_append, List.length_cons, List.length_nil] at hlen
    simp only [List.length_append, List.length_cons, List.length_nil]
    omega
  · rw [if_neg hs]
    have h1 := joinSep_dropLast_length_le [' '] (pySplitWs pre)
    have h2 := joinSep_pySplitWs_length pre
    omega

theorem truncate_text_of_le (text : List Char) (max_length : Int)
    (add_ellipsis : Bool) (h : (text.length : Int) ≤ max_length) :
    truncate_text text max_length add_ellipsis = text := by
  unfold truncate_text
  simp [h]

/-- Core bound: when the effective budget is nonnegative (`max_length ≥ 3`
with ellipsis, any nonnegative bound without), `truncate_text` respects
its bound. -/
theorem truncate_text_length_le (text : List Char) (max_length : Int)
    (add_ellipsis : Bool)
    (h : if add_ellipsis then 3 ≤ max_length else 0 ≤ max_length) :
    ((truncate_text text max_length add_ellipsis).length : Int) ≤ max_length := by
  by_cases hle : (text.length : Int) ≤ max_length
  · rw [truncate_text_of_le text max_length add_ellipsis hle]
    exact hle
  · cases add_ellipsis with
    | false =>
      simp only [if_false, Bool.false_eq_true] at h
      have hpre := pyTake_length_le_of_nonneg text max_length h
      have hbr := truncate_branch_length_le (pyTake text max_length)
      simp only [truncate_text, hle, if_false, Bool.false_eq_true]
      omega
    | true =>
      simp only [if_true] at h
      have hb : (0 : Int) ≤ max_length - 3 := by omega
      have hpre := pyTake_length_le_of_nonneg text (max_length - 3) hb
      have hbr := truncate_branch_length_le (pyTake text (max_length - 3))
      simp only [truncate_text, hle, if_false, if_true, List.length_append,
        ellipsisChars, List.length_cons, List.length_nil]
      omega

/-! ## Claims C1 and C2: truncation bound and idempotence -/

/-- C1 (counterexample): the claim "truncate is idempotent for every
string and every bound" fails at `s = "a.b"`, `N = 2`: with the ellipsis
reservation the effective budget is `-1`, a Python negative slice bound,
and re-truncating `"a...."` yields `"a......"`. -/
theorem C1_counterexample :
    truncate_text (truncate_text ("a.b".toList) 2 true) 2 true ≠
      truncate_text ("a.b".toList) 2 true := by decide

/-- C1 (amended): `truncate` with ellipsis enabled is idempotent for every
string `s` and every bound `N ≥ 3` (so that the three-character ellipsis
reservation keeps the slice budget nonnegative); in particular
re-truncating an already-truncated string is a no-op. -/
theorem C1_truncate_idempotent (s : List Char) (N : Int) (h : 3 ≤ N) :
    truncate_text (truncate_text s N true) N true = truncate_text s N true :=
  truncate_text_of_le _ N true
    (truncate_text_length_le s N true (by simpa using h))

/-- Witness for C1 at `s = "First sentence. Second sentence."`, `N = 20`. -/
theorem C1_witness :
    truncate_text
        (truncate_text ("First sentence. Second sentence.".toList) 20 true)
        20 true =
      truncate_text ("First sentence. Second sentence.".toList) 20 true :=
  C1_truncate_idempotent _ 20 (by norm_num)

/-- C2 (counterexample): the claim "the result of truncate has length at
most maxLength for every text and every maxLength" fails at
`text = "abcde"`, `maxLength = 2` (ellipsis enabled, the default): the
result is `"..."` of length 3. -/
theorem C2_counterexample :
    ¬ (((truncate_text ("abcde".toList) 2 true).length : Int) ≤ 2) := by
  decide

/-- C2 (amended): for every text and every `maxLength ≥ 3` the result of
`truncate_text` has length at most `maxLength` (for `maxLength < 3` with
ellipsis enabled the reserved-ellipsis arithmetic can overshoot); text
with `len(text) ≤ maxLength` is returned unchanged; and
`truncate("First sentence. Second sentence.", 20)` equals
`"First sentence...."`, which ends in a period followed by the three-dot
ellipsis marker and has length 18 ≤ 20. -/
theorem C2_truncate_bounds :
    (∀ (text : List Char) (N : Int) (ell : Bool), 3 ≤ N →
        ((truncate_text text N ell).length : Int) ≤ N) ∧
    (∀ (text : List Char) (N : Int) (ell : Bool), (text.length : Int) ≤ N →
        truncate_text text N ell = text) ∧
    truncate_text ("First sentence. Second sentence.".toList) 20 true =
      "First sentence....".toList ∧
    truncate_text ("First sentence. Second sentence.".toList) 20 true =
      "First sentence".toList ++ ['.'] ++ ellipsisChars := by
  refine ⟨fun text N ell h => ?_, fun text N ell h => truncate_text_of_le text N ell h, ?_, ?_⟩
  · refine truncate_text_length_le text N ell ?_
    cases ell <;> simp <;> omega
  · decide
  · decide

/-- Witness for C2's universally quantified parts at concrete inputs. -/
theorem C2_witness :
    ((truncate_text ("this is a long text that needs truncation".toList)
        20 true).length : Int) ≤ 20 ∧
    truncate_text ("short".toList) 50 true = "short".toList :=
  ⟨C2_truncate_bounds.1 _ 20 true (by norm_num),
   C2_truncate_bounds.2.1 _ 50 true (by decide)⟩

/-! ## ResponseParser: `extract_first_title` (gemini_service.py 45–68)

The three regex pattern classes are embedded as explicit left-to-right
scans with Python `re` semantics: `.` does not cross newlines (no
DOTALL in these patterns), non-greedy captures stop at the first
position where the rest of the pattern matches, and `re.findall`
returns matches left to right. -/

/-- Capture of `(.*?)` before a closing `\*\*`, at the current position:
minimal run of non-newline characters followed by `**`; `none` when no
closing marker exists on the line. -/
def starStarClose : List Char → Option (List Char)
  | '*' :: '*' :: _ => some []
  | c :: rest => if c = '\n' then none else (starStarClose rest).map (c :: ·)
  | [] => none

/-- First match of `\*\*(.*?)\*\*`: leftmost opening `**` with a closing
`**` on the same line, with minimal capture; a failed opening position
advances the scan by one character. -/
def firstStarStar : List Char → Option (List Char)
  | [] => none
  | c :: rest =>
    if c = '*' then
      match rest with
      | '*' :: rest2 =>
        (match starStarClose rest2 with
          | some cap => some cap
          | none => firstStarStar rest)
      | _ => firstStarStar rest
    else firstStarStar rest

/-- Stop set of the lookahead `(?=\(|$)` in the bullet pattern (with
MULTILINE, `$` matches at a line end). -/
def bulletStop (c : Char) : Bool := c = '(' || c = '\n'

/-- First match of `\* (.*?)(?=\(|$)`: leftmost `"* "`, capturing up to
the first `(` or line end (possibly empty). -/
def firstBullet : List Char → Option (List Char)
  | '*' :: ' ' :: rest => some (rest.takeWhile (fun c => !bulletStop c))
  | _ :: rest => firstBullet rest
  | [] => none

/-- First match of `\n(.*?)(?=\n|$)`: the line following the first
newline of the text. -/
def firstAfterNewline : List Char → Option (List Char)
  | '\n' :: rest => some (rest.takeWhile (· ≠ '\n'))
  | _ :: rest => firstAfterNewline rest
  | [] => none

/-- The filler prefixes `('Here', 'More', 'The best')` rejected by
`extract_first_title`. -/
def fillerPrefixes : List (List Char) :=
  ["Here".toList, "More".toList, "The best".toList]

def startsWithAny (l : List Char) (ps : List (List Char)) : Bool :=
  ps.any (fun p => p.isPrefixOf l)

/-- One pattern step of `extract_first_title`: take the first match (if
any), strip it, and keep it only when nonempty and not starting with a
filler prefix. -/
def firstMatchCandidate (m : Option (List Char)) : Option (List Char) :=
  match m with
  | none => none
  | some raw =>
    let t := pyStrip raw
    if !t.isEmpty && !startsWithAny t fillerPrefixes then some t else none

inductive TitleErr
  | noTitleFound
deriving DecidableEq

/-- The title length limit `MAX_TITLE_LENGTH`. -/
def MAX_TITLE_LENGTH : Int := 100

/-- The fallback line list
`[line.strip() for line in text.split('\n') if line.strip()]`. -/
def strippedNonemptyLines (text : List Char) : List (List Char) :=
  ((splitOnChar '\n' text).map pyStrip).filter (fun l => !l.isEmpty)

/-- `extract_first_title` from `gemini_service.py`: try the three pattern
classes in order on their first match, then fall back to the first
non-empty non-filler line; raise (`ValueError`) when nothing survives. -/
def extract_first_title (text : List Char) : Except TitleErr (List Char) :=
  match firstMatchCandidate (firstStarStar text) with
  | some t => .ok (truncate_text t MAX_TITLE_LENGTH false)
  | none =>
    match firstMatchCandidate (firstBullet text) with
    | some t => .ok (truncate_text t MAX_TITLE_LENGTH false)
    | none =>
      match firstMatchCandidate (firstAfterNewline text) with
      | some t => .ok (truncate_text t MAX_TITLE_LENGTH false)
      | none =>
        match (strippedNonemptyLines text).find?
            (fun l => !startsWithAny l fillerPrefixes) with
        | some line => .ok (truncate_text line MAX_TITLE_LENGTH false)
        | none => .error .noTitleFound

/-! ## ResponseParser: `parse_rating_review` (gemini_service.py 70–99) -/

def ratingLabel : List Char := "Rating:".toList
def reviewLabel : List Char := "Review:".toList

/-- Match of `\s*(\d+\.?\d*)` at the current position: skip whitespace,
require at least one digit, then an optional dot and further digits. -/
def ratingNumberAt (l : List Char) : Option (List Char) :=
  let l1 := l.dropWhile isPySpace
  let ds := l1.takeWhile Char.isDigit
  if ds.isEmpty then none
  else
    match l1.drop ds.length with
    | '.' :: rest2 => some (ds ++ '.' :: rest2.takeWhile Char.isDigit)
    | _ => some ds

/-- `re.search(r'Rating:\s*(\d+\.?\d*)', text)`: leftmost `Rating:` label
followed (after optional whitespace) by a number. -/
def ratingSearch : List Char → Option (List Char)
  | [] => none
  | c :: rest =>
    if ratingLabel.isPrefixOf (c :: rest) then
      match ratingNumberAt ((c :: rest).drop 7) with
      | some num => some num
      | none => ratingSearch rest
    else ratingSearch rest

def digitsToNat (ds : List Char) : Nat :=
  ds.foldl (fun n c => 10 * n + (c.toNat - '0'.toNat)) 0

/-- Python `float()` on the matched `\d+\.?\d*` string, as the exact
rational `intPart + fracPart / 10^len(fracPart)` (built with a single
`mkRat` so that it evaluates by kernel reduction). -/
def parseDecimal (s : List Char) : ℚ :=
  let intPart := s.takeWhile Char.isDigit
  let fracPart :=
    match s.drop intPart.length with
    | '.' :: rest => rest.takeWhile Char.isDigit
    | _ => []
  mkRat (digitsToNat intPart * 10 ^ fracPart.length + digitsToNat fracPart)
    (10 ^ fracPart.length)

/-- Capture of `(.*?)(?=Rating:|$)` with DOTALL: minimal (possibly
multi-line) run stopping at the next `Rating:` label, at end of text, or
(plain-`$` semantics) just before a final newline. -/
def reviewCapture : List Char → List Char
  | [] => []
  | ['\n'] => []
  | c :: rest =>
    if ratingLabel.isPrefixOf (c :: rest) then [] else c :: reviewCapture rest

/-- `re.search(r'Review:(.*?)(?=Rating:|$)', text, re.DOTALL)`: leftmost
`Review:` label with its capture. -/
def reviewSearch : List Char → Option (List Char)
  | [] => none
  | c :: rest =>
    if reviewLabel.isPrefixOf (c :: rest) then
      some (reviewCapture ((c :: rest).drop 7))
    else reviewSearch rest

inductive ParseErr
  | noRating
  | noReview
  | outOfRange (rating : ℚ)
deriving DecidableEq

/-- The review length limit `MAX_REVIEW_LENGTH`. -/
def MAX_REVIEW_LENGTH : Int := 100

/-- `parse_rating_review` from `gemini_service.py`: find the rating
number, then the review text, validate the range `[0, 5]`, and truncate
the stripped review to 100 characters with ellipsis. -/
def parse_rating_review (text : List Char) : Except ParseErr (ℚ × List Char) :=
  match ratingSearch text with
  | none => .error .noRating
  | some numStr =>
    let rating := parseDecimal numStr
    match reviewSearch text with
    | none => .error .noReview
    | some raw =>
      let review := pyStrip raw
      if 0 ≤ rating ∧ rating ≤ 5 then
        .ok (rating, truncate_text review MAX_REVIEW_LENGTH true)
      else .error (.outOfRange rating)

/-! ## Claims C3 and C4: `parse_rating_review` -/

/-- C3: `extractRatingReview` fails iff the numeric-after-`Rating:` label
is absent, the text-after-`Review:` label is absent, or the parsed rating
lies outside `[0, 5]`, checked in that order and with distinguishing
reasons; in particular `"Review: Excellent property!"` fails with the
no-rating reason, `"Rating: 5"` with the no-review reason, and
`"Rating: 6\nReview: x"` with the out-of-range reason carrying 6. -/
theorem C3_parse_failure_cases :
    (∀ t, parse_rating_review t = .error .noRating ↔ ratingSearch t = none) ∧
    (∀ t, parse_rating_review t = .error .noReview ↔
        (ratingSearch t).isSome ∧ reviewSearch t = none) ∧
    (∀ t r, parse_rating_review t = .error (.outOfRange r) ↔
        (∃ s, ratingSearch t = some s ∧ parseDecimal s = r) ∧
          (reviewSearch t).isSome ∧ ¬(0 ≤ r ∧ r ≤ 5)) ∧
    parse_rating_review ("Review: Excellent property!".toList) =
      .error .noRating ∧
    parse_rating_review ("Rating: 5".toList) = .error .noReview ∧
    parse_rating_review ("Rating: 6\nReview: x".toList) =
      .error (.outOfRange (mkRat 6 1)) ∧
    mkRat 6 1 = (6 : ℚ) := by
  refine ⟨fun t => ?_, fun t => ?_, fun t r => ?_, by decide, by decide,
    by decide, by decide⟩
  · unfold parse_rating_review
    cases hr : ratingSearch t with
    | none => simp
    | some s =>
      cases hv : reviewSearch t with
      | none => simp
      | some raw =>
        by_cases hrange : 0 ≤ parseDecimal s ∧ parseDecimal s ≤ 5 <;>
          simp [hrange]
  · unfold parse_rating_review
    cases hr : ratingSearch t with
    | none => simp
    | some s =>
      cases hv : reviewSearch t with
      | none => simp
      | some raw =>
        by_cases hrange : 0 ≤ parseDecimal s ∧ parseDecimal s ≤ 5 <;>
          simp [hrange]
  · unfold parse_rating_review
    cases hr : ratingSearch t with
    | none => simp
    | some s =>
      cases hv : reviewSearch t with
      | none => simp
      | some raw =>
        dsimp only
        by_cases hrange : 0 ≤ parseDecimal s ∧ parseDecimal s ≤ 5
        · rw [if_pos hrange]
          constructor
          · intro h; exact absurd h (by simp)
          · rintro ⟨⟨s2, hs2, hps⟩, -, hnot⟩
            rw [Option.some_inj] at hs2
            subst hs2
            exact absurd (hps ▸ hrange) hnot
        · rw [if_neg hrange]
          constructor
          · intro h
            have h2 : parseDecimal s = r := by
              simpa using h
            exact ⟨⟨s, rfl, h2⟩, by simp, h2 ▸ hrange⟩
          · rintro ⟨⟨s2, hs2, hps⟩, -, -⟩
            rw [Option.some_inj] at hs2
            subst hs2
            rw [hps]

/-- Witness for C3's first equivalence, applied at a concrete input. -/
theorem C3_witness :
    ratingSearch ("Review: Excellent property!".toList) = none :=
  (C3_parse_failure_cases.1 _).mp C3_parse_failure_cases.2.2.2.1

/-- C4: on success, `extractRatingReview` returns the decimal value found
for the leftmost matching `Rating:` label, as a rational in `[0, 5]`,
paired with the text captured after the `Review:` label (up to the next
`Rating:` label or the end of text), stripped and truncated to 100
characters with ellipsis enabled; the two concrete examples hold. -/
theorem C4_parse_success :
    (∀ t r rev, parse_rating_review t = .ok (r, rev) →
        (∃ s, ratingSearch t = some s ∧ r = parseDecimal s) ∧
        0 ≤ r ∧ r ≤ 5 ∧
        (∃ raw, reviewSearch t = some raw ∧
          rev = truncate_text (pyStrip raw) MAX_REVIEW_LENGTH true)) ∧
    parse_rating_review ("Rating: 4.5\nReview: Good property!".toList) =
      .ok ((4.5 : ℚ), "Good property!".toList) ∧
    parse_rating_review ("Rating: 5\nReview: Excellent property!".toList) =
      .ok ((5 : ℚ), "Excellent property!".toList) := by
  refine ⟨fun t r rev h => ?_, ?_, ?_⟩
  · unfold parse_rating_review at h
    cases hr : ratingSearch t with
    | none => rw [hr] at h; exact absurd h (by simp)
    | some s =>
      rw [hr] at h
      cases hv : reviewSearch t with
      | none =>
        rw [hv] at h
        exact absurd h (by simp)
      | some raw =>
        rw [hv] at h
        dsimp only at h
        by_cases hrange : 0 ≤ parseDecimal s ∧ parseDecimal s ≤ 5
        · rw [if_pos hrange] at h
          simp only [Except.ok.injEq, Prod.mk.injEq] at h
          obtain ⟨h1, h2⟩ := h
          exact ⟨⟨s, rfl, h1.symm⟩, h1 ▸ hrange.1, h1 ▸ hrange.2,
            ⟨raw, rfl, h2.symm⟩⟩
        · rw [if_neg hrange] at h; exact absurd h (by simp)
  · have h : parse_rating_review ("Rating: 4.5\nReview: Good property!".toList) =
        .ok (mkRat 45 10, "Good property!".toList) := by decide
    have h2 : mkRat 45 10 = (4.5 : ℚ) := by
      norm_num [Rat.mkRat_eq_divInt, Rat.divInt_eq_div]
    rw [h, h2]
  · have h : parse_rating_review ("Rating: 5\nReview: Excellent property!".toList) =
        .ok (mkRat 5 1, "Excellent property!".toList) := by decide
    have h2 : mkRat 5 1 = (5 : ℚ) := by
      norm_num [Rat.mkRat_eq_divInt, Rat.divInt_eq_div]
    rw [h, h2]

/-- Witness for C4's success-shape, discharged with its own first
concrete example. -/
theorem C4_witness :
    (∃ s, ratingSearch ("Rating: 4.5\nReview: Good property!".toList) = some s ∧
        (4.5 : ℚ) = parseDecimal s) ∧
    (0 : ℚ) ≤ 4.5 ∧ (4.5 : ℚ) ≤ 5 ∧
    (∃ raw, reviewSearch ("Rating: 4.5\nReview: Good property!".toList) = some raw ∧
        "Good property!".toList = truncate_text (pyStrip raw) MAX_REVIEW_LENGTH true) :=
  C4_parse_success.1 _ _ _ C4_parse_success.2.1

/-! ## Claims C5 and C6: `extract_first_title` -/

/-- A pattern's first match yields no surviving candidate: there is no
match, or the stripped match is empty or starts with a filler prefix. -/
def noSurvivor (m : Option (List Char)) : Prop :=
  ∀ raw, m = some raw →
    pyStrip raw = [] ∨ startsWithAny (pyStrip raw) fillerPrefixes = true

theorem firstMatchCandidate_eq_none_iff (m : Option (List Char)) :
    firstMatchCandidate m = none ↔ noSurvivor m := by
  cases m with
  | none => simp [firstMatchCandidate, noSurvivor]
  | some raw =>
    simp only [firstMatchCandidate, noSurvivor]
    constructor
    · intro h q hq
      rw [Option.some_inj] at hq
      subst hq
      by_cases h1 : pyStrip raw = []
      · exact Or.inl h1
      · refine Or.inr ?_
        by_cases h2 : startsWithAny (pyStrip raw) fillerPrefixes = true
        · exact h2
        · exfalso
          have hne : (pyStrip raw).isEmpty = false := by
            cases hq2 : (pyStrip raw).isEmpty
            · rfl
            · exact absurd (List.isEmpty_iff.mp hq2) h1
          rw [Bool.not_eq_true] at h2
          rw [hne, h2] at h
          simp at h
    · intro h
      rcases h raw rfl with h1 | h1
      · have h2 : (pyStrip raw).isEmpty = true := List.isEmpty_iff.mpr h1
        simp [h2]
      · simp [h1]

theorem find?_nonfiller_eq_none_iff (ls : List (List Char)) :
    ls.find? (fun l => !startsWithAny l fillerPrefixes) = none ↔
      ∀ l ∈ ls, startsWithAny l fillerPrefixes = true := by
  rw [List.find?_eq_none]
  constructor
  · intro h l hl
    have := h l hl
    simpa using this
  · intro h l hl
    simp [h l hl]

/-- C5: `extractTitle` fails with `NoTitleFound` exactly when no candidate
survives: the first double-asterisk match, the first bullet match, the
first after-newline match are each absent, empty after stripping, or
filler-prefixed, and every non-empty stripped line starts with a filler
prefix; in particular the all-filler input fails. -/
theorem C5_extract_title_failure :
    (∀ text, extract_first_title text = .error .noTitleFound ↔
        (noSurvivor (firstStarStar text) ∧ noSurvivor (firstBullet text) ∧
         noSurvivor (firstAfterNewline text) ∧
         ∀ l ∈ strippedNonemptyLines text,
           startsWithAny l fillerPrefixes = true)) ∧
    extract_first_title
        ("Here are some suggestions:\nThe best options:\nMore ideas:".toList) =
      .error .noTitleFound := by
  refine ⟨fun text => ?_, by decide⟩
  unfold extract_first_title
  cases h1 : firstMatchCandidate (firstStarStar text) with
  | some t =>
    simp only []
    constructor
    · intro h; exact absurd h (by simp)
    · rintro ⟨hns, -, -, -⟩
      rw [← firstMatchCandidate_eq_none_iff, h1] at hns
      exact absurd hns (by simp)
  | none =>
    cases h2 : firstMatchCandidate (firstBullet text) with
    | some t =>
      simp only []
      constructor
      · intro h; exact absurd h (by simp)
      · rintro ⟨-, hns, -, -⟩
        rw [← firstMatchCandidate_eq_none_iff, h2] at hns
        exact absurd hns (by simp)
    | none =>
      cases h3 : firstMatchCandidate (firstAfterNewline text) with
      | some t =>
        simp only []
        constructor
        · intro h; exact absurd h (by simp)
        · rintro ⟨-, -, hns, -⟩
          rw [← firstMatchCandidate_eq_none_iff, h3] at hns
          exact absurd hns (by simp)
      | none =>
        cases h4 : (strippedNonemptyLines text).find?
            (fun l => !startsWithAny l fillerPrefixes) with
        | some line =>
          simp only []
          constructor
          · intro h; exact absurd h (by simp)
          · rintro ⟨-, -, -, hall⟩
            rw [← find?_nonfiller_eq_none_iff, h4] at hall
            exact absurd hall (by simp)
        | none =>
          simp only []
          constructor
          · intro _
            exact ⟨(firstMatchCandidate_eq_none_iff _).mp h1,
              (firstMatchCandidate_eq_none_iff _).mp h2,
              (firstMatchCandidate_eq_none_iff _).mp h3,
              (find?_nonfiller_eq_none_iff _).mp h4⟩
          · intro _; trivial

/-- Witness for C5's equivalence at the concrete all-filler input. -/
theorem C5_witness :
    noSurvivor (firstStarStar
      ("Here are some suggestions:\nThe best options:\nMore ideas:".toList)) :=
  ((C5_extract_title_failure.1 _).mp C5_extract_title_failure.2).1

/-- C6: `extractTitle` tries the pattern classes in priority order —
double-asterisk span, bullet capture, line after a newline — using only
the first match of each and falling through when it does not survive;
a successful candidate is truncated to the 100-character title bound
with no ellipsis; the two concrete examples hold. -/
theorem C6_extract_title_priority :
    (∀ text t, firstMatchCandidate (firstStarStar text) = some t →
        extract_first_title text = .ok (truncate_text t MAX_TITLE_LENGTH false)) ∧
    (∀ text t, firstMatchCandidate (firstStarStar text) = none →
        firstMatchCandidate (firstBullet text) = some t →
        extract_first_title text = .ok (truncate_text t MAX_TITLE_LENGTH false)) ∧
    (∀ text t, firstMatchCandidate (firstStarStar text) = none →
        firstMatchCandidate (firstBullet text) = none →
        firstMatchCandidate (firstAfterNewline text) = some t →
        extract_first_title text = .ok (truncate_text t MAX_TITLE_LENGTH false)) ∧
    extract_first_title ("Some suggestions:\n**Great Title**\nMore text".toList) =
      .ok ("Great Title".toList) ∧
    extract_first_title ("* Amazing Title\nSome more text".toList) =
      .ok ("Amazing Title".toList) := by
  refine ⟨fun text t h1 => ?_, fun text t h1 h2 => ?_,
    fun text t h1 h2 h3 => ?_, by decide, by decide⟩
  · unfold extract_first_title
    rw [h1]
  · unfold extract_first_title
    rw [h1, h2]
  · unfold extract_first_title
    rw [h1, h2, h3]

/-- Witness for C6's first-priority rule at a concrete input. -/
theorem C6_witness :
    extract_first_title ("Some suggestions:\n**Great Title**\nMore text".toList) =
      .ok (truncate_text ("Great Title".toList) MAX_TITLE_LENGTH false) :=
  C6_extract_title_priority.1 _ _ (by decide)

/-! ## ModelClient: `interact_with_gemini` (gemini_service.py 101–175)

The HTTP layer is modelled as a function from attempt index to response.
A 200 response carries either the `candidates[0].content.parts[0].text`
payload (`goodBody`) or a missing/malformed candidates path (`badBody`).
`time.sleep` calls are modelled by returning the list of waited
durations in seconds. -/

/-- The `content_type` argument (`'title'`, `'description'`, `'summary'`,
`'review'`, or `None`). -/
inductive CType
  | ctitle
  | cdescription
  | csummary
  | creview
  | cnone
deriving DecidableEq

inductive Body
  | goodBody (text : List Char)
  | badBody
deriving DecidableEq

inductive HttpResp
  | http (status : Nat) (body : Body)
  | netErr
deriving DecidableEq

inductive CallErr
  | unexpectedFormat
  | httpError (status : Nat)
  | maxRetriesNet
  | exhaustedRetries
deriving DecidableEq

def MAX_DESCRIPTION_LENGTH : Int := 200
def MAX_SUMMARY_LENGTH : Int := 100

/-- The 200-response handling of `interact_with_gemini`: optional title
extraction (whose failure is re-raised as the unexpected-format error),
else content-type-specific truncation, else raw text. -/
def postProcess (extractTitle : Bool) (ct : CType) (text : List Char) :
    Except CallErr (List Char) :=
  if extractTitle then
    (extract_first_title text).mapError (fun _ => .unexpectedFormat)
  else
    match ct with
    | .cdescription => .ok (truncate_text text MAX_DESCRIPTION_LENGTH true)
    | .csummary => .ok (truncate_text text MAX_SUMMARY_LENGTH true)
    | .creview => .ok (truncate_text text MAX_REVIEW_LENGTH true)
    | _ => .ok text

def retries : Nat := 5

/-- The retry loop `for attempt in range(retries)` with remaining fuel:
200 is handled first (good payload → post-process; malformed → fail
immediately), 503/429 sleep `2^attempt` and retry, any other status
fails immediately; a network error fails on the last attempt and
otherwise sleeps and retries; exhausting the loop raises the final
"failed after multiple retries" error. -/
def gemini_attempts (resp : Nat → HttpResp) (extractTitle : Bool) (ct : CType) :
    Nat → Nat → Except CallErr (List Char) × List Nat
  | 0, _ => (.error .exhaustedRetries, [])
  | fuel + 1, attempt =>
    match resp attempt with
    | .http 200 (.goodBody t) => (postProcess extractTitle ct t, [])
    | .http 200 .badBody => (.error .unexpectedFormat, [])
    | .http s _ =>
      if s = 503 ∨ s = 429 then
        ((gemini_attempts resp extractTitle ct fuel (attempt + 1)).1,
          2 ^ attempt :: (gemini_attempts resp extractTitle ct fuel (attempt + 1)).2)
      else (.error (.httpError s), [])
    | .netErr =>
      if attempt = retries - 1 then (.error .maxRetriesNet, [])
      else
        ((gemini_attempts resp extractTitle ct fuel (attempt + 1)).1,
          2 ^ attempt :: (gemini_attempts resp extractTitle ct fuel (attempt + 1)).2)

def interact_with_gemini (resp : Nat → HttpResp) (extractTitle : Bool := false)
    (ct : CType := .cnone) : Except CallErr (List Char) × List Nat :=
  gemini_attempts resp extractTitle ct retries 0

theorem interact_with_gemini_eq (resp : Nat → HttpResp) (et : Bool) (ct : CType) :
    interact_with_gemini resp et ct = gemini_attempts resp et ct (4 + 1) 0 := rfl

theorem gemini_attempts_success (resp : Nat → HttpResp) (et : Bool) (ct : CType)
    (fuel attempt : Nat) (t : List Char)
    (hresp : resp attempt = .http 200 (.goodBody t)) :
    gemini_attempts resp et ct (fuel + 1) attempt = (postProcess et ct t, []) := by
  simp [gemini_attempts, hresp]

theorem gemini_attempts_badBody (resp : Nat → HttpResp) (et : Bool) (ct : CType)
    (fuel attempt : Nat)
    (hresp : resp attempt = .http 200 .badBody) :
    gemini_attempts resp et ct (fuel + 1) attempt = (.error .unexpectedFormat, []) := by
  simp [gemini_attempts, hresp]

theorem gemini_attempts_retry (resp : Nat → HttpResp) (et : Bool) (ct : CType)
    (fuel attempt : Nat) (s : Nat) (b : Body)
    (hresp : resp attempt = .http s b) (hs : s = 503 ∨ s = 429) :
    gemini_attempts resp et ct (fuel + 1) attempt =
      ((gemini_attempts resp et ct fuel (attempt + 1)).1,
        2 ^ attempt :: (gemini_attempts resp et ct fuel (attempt + 1)).2) := by
  cases b <;> rcases hs with rfl | rfl <;> simp [gemini_attempts, hresp]

theorem gemini_attempts_http_fail (resp : Nat → HttpResp) (et : Bool) (ct : CType)
    (fuel attempt : Nat) (s : Nat) (b : Body)
    (hresp : resp attempt = .http s b) (hn200 : s ≠ 200) (hn503 : s ≠ 503)
    (hn429 : s ≠ 429) :
    gemini_attempts resp et ct (fuel + 1) attempt = (.error (.httpError s), []) := by
  cases b <;> simp [gemini_attempts, hresp, hn200, hn503, hn429]

/-- Exhausting the loop on retryable statuses: every attempt sleeps
`2^attempt` seconds, including the final one, before the terminal
failure. -/
theorem gemini_attempts_all_retryable (resp : Nat → HttpResp) (et : Bool)
    (ct : CType) (fuel attempt : Nat)
    (h : ∀ i, attempt ≤ i → i < attempt + fuel →
        ∃ s b, resp i = .http s b ∧ (s = 503 ∨ s = 429)) :
    gemini_attempts resp et ct fuel attempt =
      (.error .exhaustedRetries,
        (List.range fuel).map (fun k => 2 ^ (attempt + k))) := by
  induction fuel generalizing attempt with
  | zero => simp [gemini_attempts]
  | succ fuel ih =>
    obtain ⟨s, b, hresp, hs⟩ := h attempt le_rfl (by omega)
    rw [gemini_attempts_retry resp et ct fuel attempt s b hresp hs]
    rw [ih (attempt + 1) (fun i h1 h2 => h i (by omega) (by omega))]
    have hfun : ((fun k => 2 ^ (attempt + k)) ∘ Nat.succ) =
        (fun k => 2 ^ (attempt + 1 + k)) := by
      funext k
      simp only [Function.comp_apply]
      congr 1
      omega
    have hmap : (List.range (fuel + 1)).map (fun k => 2 ^ (attempt + k)) =
        2 ^ attempt :: (List.range fuel).map (fun k => 2 ^ (attempt + 1 + k)) := by
      rw [List.range_succ_eq_map, List.map_cons, List.map_map, hfun]
      simp
    dsimp only
    rw [hmap]

theorem gemini_attempts_congr (resp resp2 : Nat → HttpResp) (et : Bool)
    (ct : CType) (fuel attempt : Nat)
    (h : ∀ i, attempt ≤ i → i < attempt + fuel → resp i = resp2 i) :
    gemini_attempts resp et ct fuel attempt =
      gemini_attempts resp2 et ct fuel attempt := by
  induction fuel generalizing attempt with
  | zero => rfl
  | succ fuel ih =>
    have h0 : resp attempt = resp2 attempt := h attempt le_rfl (by omega)
    have hrec : gemini_attempts resp et ct fuel (attempt + 1) =
        gemini_attempts resp2 et ct fuel (attempt + 1) :=
      ih (attempt + 1) (fun i h1 h2 => h i (by omega) (by omega))
    simp only [gemini_attempts, h0, hrec]

/-- C7: `ModelClient` makes at most 5 attempts (the result depends only
on the first five responses); repeated 503/429 responses sleep 1, 2, 4,
8, 16 seconds (`2^attempt` for attempts 0–4) and end in the terminal
retries-exhausted failure; any other non-200 status and a malformed 200
body fail immediately, with no retry and no sleep. -/
theorem C7_retry_policy :
    (∀ resp et ct,
        (∀ i, i < 5 → ∃ s b, resp i = HttpResp.http s b ∧ (s = 503 ∨ s = 429)) →
        interact_with_gemini resp et ct =
          (.error .exhaustedRetries, [1, 2, 4, 8, 16])) ∧
    (∀ resp resp2 et ct, (∀ i, i < 5 → resp i = resp2 i) →
        interact_with_gemini resp et ct = interact_with_gemini resp2 et ct) ∧
    (∀ resp et ct s b, resp 0 = HttpResp.http s b → s ≠ 200 → s ≠ 503 →
        s ≠ 429 →
        interact_with_gemini resp et ct = (.error (.httpError s), [])) ∧
    (∀ resp et ct, resp 0 = HttpResp.http 200 .badBody →
        interact_with_gemini resp et ct = (.error .unexpectedFormat, [])) := by
  refine ⟨fun resp et ct h => ?_, fun resp resp2 et ct h => ?_,
    fun resp et ct s b h0 hn200 hn503 hn429 => ?_, fun resp et ct h0 => ?_⟩
  · rw [interact_with_gemini_eq,
      gemini_attempts_all_retryable resp et ct (4 + 1) 0
        (fun i h1 h2 => h i (by omega))]
    simp [List.range_succ]
  · rw [interact_with_gemini_eq, interact_with_gemini_eq,
      gemini_attempts_congr resp resp2 et ct (4 + 1) 0
        (fun i h1 h2 => h i (by omega))]
  · rw [interact_with_gemini_eq,
      gemini_attempts_http_fail resp et ct 4 0 s b h0 hn200 hn503 hn429]
  · rw [interact_with_gemini_eq,
      gemini_attempts_badBody resp et ct 4 0 h0]

/-- Witness for C7 with the constant-503 response sequence. -/
theorem C7_witness :
    interact_with_gemini (fun _ => HttpResp.http 503 .badBody) false .cnone =
      (.error .exhaustedRetries, [1, 2, 4, 8, 16]) :=
  C7_retry_policy.1 _ false .cnone
    (fun _ _ => ⟨503, .badBody, rfl, Or.inl rfl⟩)

/-! ## TitleSelector: `Command.select_best_title`
(rewrite_properties.py 27–86) -/

/-- Per-line match of `\* ([^\n]+)`: the first `"* "` of the line with
its greedy capture to line end; an empty capture (a `"* "` ending the
line) matches nothing, and nothing later in the line can match. -/
def lineBulletCapture : List Char → Option (List Char)
  | '*' :: ' ' :: rest => if rest.isEmpty then none else some rest
  | _ :: rest => lineBulletCapture rest
  | [] => none

/-- `re.findall(r'\* ([^\n]+)', s)`: captures cannot contain or span
newlines and each match consumes the rest of its line, so the match list
is one capture per line holding a `"* "` with a non-empty remainder. -/
def bulletMatches (text : List Char) : List (List Char) :=
  (splitOnChar '\n' text).filterMap lineBulletCapture

/-- State machine for `re.findall(r'\*\*(.*?)\*\*', s)`: `none` scans
for an opening `**`; `some acc` accumulates the capture (reversed) until
the closing `**`.  A newline or the end of input inside a capture
discards the pending opening (the regex attempt fails there, and no
match can begin before the next line). -/
def starStarMatchesAux : List Char → Option (List Char) → List (List Char)
  | [], _ => []
  | '*' :: '*' :: rest, none => starStarMatchesAux rest (some [])
  | '*' :: '*' :: rest, some acc => acc.reverse :: starStarMatchesAux rest none
  | '\n' :: rest, some _ => starStarMatchesAux rest none
  | _ :: rest, none => starStarMatchesAux rest none
  | c :: rest, some acc => starStarMatchesAux rest (some (c :: acc))

def starStarMatches (text : List Char) : List (List Char) :=
  starStarMatchesAux text none

/-- The fallback line list of `select_best_title`: lines that strip
non-empty and do not start (unstripped) with `'Here'`, `'The best'` or
`'#'`, then stripped. -/
def titleFallbackLines (resp : List Char) : List (List Char) :=
  ((splitOnChar '\n' resp).filter
      (fun line => !(pyStrip line).isEmpty &&
        !startsWithAny line ["Here".toList, "The best".toList, "#".toList])).map
    pyStrip

/-- Candidate extraction of `select_best_title`: bullet captures plus
double-asterisk spans, else the fallback lines; then strip, drop
empties, and deduplicate.  Python's `list(set(...))` order is
unspecified, so `List.dedup` is one admissible order; the selection
theorems below are proved for an arbitrary candidate list and therefore
hold for every order. -/
def titleCandidates (title_response : List Char) : List (List Char) :=
  let titles := bulletMatches title_response ++ starStarMatches title_response
  let titles := if titles.isEmpty then titleFallbackLines title_response
    else titles
  ((titles.map pyStrip).filter (fun t => !t.isEmpty)).dedup

/-- Python regex `\w` on the ASCII alphabet: letters, digits,
underscore. -/
def isWordChar (c : Char) : Bool := c.isAlphanum || c = '_'

def wordTokensAux : List Char → List Char → List (List Char)
  | [], acc => if acc.isEmpty then [] else [acc.reverse]
  | c :: rest, acc =>
    if isWordChar c then wordTokensAux rest (c :: acc)
    else if acc.isEmpty then wordTokensAux rest []
    else acc.reverse :: wordTokensAux rest []

/-- `re.findall(r'\w+', l)`: maximal word-character runs. -/
def wordTokens (l : List Char) : List (List Char) := wordTokensAux l []

def pyLower (l : List Char) : List Char := l.map Char.toLower

/-- `len(original_words.intersection(title_words))`: the number of
distinct lowercased word tokens shared with the original title. -/
def overlapCount (original cand : List Char) : Nat :=
  ((wordTokens (pyLower cand)).dedup.filter
    (fun w => (wordTokens (pyLower original)).contains w)).length

def genericPrefixes : List (List Char) :=
  ["welcome to".toList, "the".toList, "a ".toList]

/-- The candidate score: +2 for length in [20,50], else +1 for length
< 70, else 0; plus the keyword overlap; minus 1 for a generic prefix. -/
def scoreTitle (original cand : List Char) : Int :=
  (if 20 ≤ cand.length ∧ cand.length ≤ 50 then 2
    else if cand.length < 70 then 1 else 0) +
    overlapCount original cand -
    (if startsWithAny (pyLower cand) genericPrefixes then 1 else 0)

/-- One comparison step of
`sorted(scored_titles, key=lambda x: (-x[0], len(x[1])))[0]`: replace
the current best only when strictly better in the lexicographic
(-score, length) key — this fold computes exactly the first element of
the stable sort. -/
def chooseBetter (original best cand : List Char) : List Char :=
  if scoreTitle original cand > scoreTitle original best ∨
      (scoreTitle original cand = scoreTitle original best ∧
        cand.length < best.length) then cand else best

/-- `select_best_title` from `rewrite_properties.py`: fall back to the
original title hard-cut to 100 characters when no candidate remains;
otherwise pick the best-scoring candidate (ties to the shortest) and
hard-cut it to 100 characters. -/
def select_best_title (title_response original_title : List Char) :
    List Char :=
  match titleCandidates title_response with
  | [] => original_title.take 100
  | c :: cs => (cs.foldl (chooseBetter original_title) c).take 100

theorem chooseBetter_cases (orig c y : List Char) :
    chooseBetter orig c y = c ∨ chooseBetter orig c y = y := by
  unfold chooseBetter
  split
  · exact Or.inr rfl
  · exact Or.inl rfl

theorem chooseBetter_le_left (orig c y : List Char) :
    scoreTitle orig c < scoreTitle orig (chooseBetter orig c y) ∨
      (scoreTitle orig c = scoreTitle orig (chooseBetter orig c y) ∧
        (chooseBetter orig c y).length ≤ c.length) := by
  unfold chooseBetter
  split
  next h =>
    rcases h with h | ⟨h1, h2⟩
    · exact Or.inl h
    · exact Or.inr ⟨h1.symm, Nat.le_of_lt h2⟩
  next h => exact Or.inr ⟨rfl, le_rfl⟩

theorem chooseBetter_le_right (orig c y : List Char) :
    scoreTitle orig y < scoreTitle orig (chooseBetter orig c y) ∨
      (scoreTitle orig y = scoreTitle orig (chooseBetter orig c y) ∧
        (chooseBetter orig c y).length ≤ y.length) := by
  unfold chooseBetter
  split
  next h => exact Or.inr ⟨rfl, le_rfl⟩
  next h =>
    rw [not_or] at h
    obtain ⟨h1, h2⟩ := h
    by_cases he : scoreTitle orig y = scoreTitle orig c
    · refine Or.inr ⟨he, ?_⟩
      rw [not_and] at h2
      have h3 := h2 he
      omega
    · left
      omega

theorem keyLex_trans (s1 s2 s3 : Int) (l1 l2 l3 : Nat)
    (h12 : s1 < s2 ∨ (s1 = s2 ∧ l2 ≤ l1))
    (h23 : s2 < s3 ∨ (s2 = s3 ∧ l3 ≤ l2)) :
    s1 < s3 ∨ (s1 = s3 ∧ l3 ≤ l1) := by
  rcases h12 with h | ⟨h, hl⟩ <;> rcases h23 with g | ⟨g, gl⟩
  · exact Or.inl (by omega)
  · exact Or.inl (by omega)
  · exact Or.inl (by omega)
  · exact Or.inr ⟨by omega, by omega⟩

theorem foldl_chooseBetter_mem (orig : List Char) (cs : List (List Char))
    (c : List Char) : cs.foldl (chooseBetter orig) c ∈ c :: cs := by
  induction cs generalizing c with
  | nil => simp
  | cons x xs ih =>
    simp only [List.foldl_cons]
    have h := ih (chooseBetter orig c x)
    rcases List.mem_cons.mp h with h1 | h1
    · rcases chooseBetter_cases orig c x with h2 | h2 <;> rw [h1, h2] <;> simp
    · exact List.mem_cons_of_mem _ (List.mem_cons_of_mem _ h1)

theorem foldl_chooseBetter_opt (orig : List Char) (cs : List (List Char))
    (c : List Char) :
    ∀ x ∈ c :: cs,
      scoreTitle orig x < scoreTitle orig (cs.foldl (chooseBetter orig) c) ∨
        (scoreTitle orig x = scoreTitle orig (cs.foldl (chooseBetter orig) c) ∧
          (cs.foldl (chooseBetter orig) c).length ≤ x.length) := by
  induction cs generalizing c with
  | nil =>
    intro x hx
    rw [List.mem_singleton] at hx
    subst hx
    exact Or.inr ⟨rfl, le_rfl⟩
  | cons y ys ih =>
    intro x hx
    simp only [List.foldl_cons]
    have hbr := ih (chooseBetter orig c y) (chooseBetter orig c y)
      (List.mem_cons_self _ _)
    rcases List.mem_cons.mp hx with rfl | hx1
    · exact keyLex_trans _ _ _ _ _ _ (chooseBetter_le_left orig x y) hbr
    · rcases List.mem_cons.mp hx1 with rfl | hx2
      · exact keyLex_trans _ _ _ _ _ _ (chooseBetter_le_right orig c x) hbr
      · exact ih (chooseBetter orig c y) x (List.mem_cons_of_mem _ hx2)

/-- C9: with zero candidates after deduplication, `select_best_title`
returns the original title hard-cut to 100 characters; otherwise it
returns a candidate of maximal score (per `scoreTitle`: +2 for length in
[20,50], else +1 for length < 70, else 0; plus the case-insensitive
word-token overlap count with the original; minus 1 for the generic
prefixes) that is shortest among the maximal-score candidates,
hard-truncated to 100 characters. -/
theorem C9_select_best_title :
    (∀ resp orig, titleCandidates resp = [] →
        select_best_title resp orig = orig.take 100) ∧
    (∀ resp orig c cs, titleCandidates resp = c :: cs →
        ∃ b, b ∈ c :: cs ∧
          select_best_title resp orig = b.take 100 ∧
          ∀ x ∈ c :: cs,
            scoreTitle orig x < scoreTitle orig b ∨
              (scoreTitle orig x = scoreTitle orig b ∧
                b.length ≤ x.length)) := by
  constructor
  · intro resp orig h
    unfold select_best_title
    rw [h]
  · intro resp orig c cs h
    refine ⟨cs.foldl (chooseBetter orig) c, foldl_chooseBetter_mem orig cs c,
      ?_, foldl_chooseBetter_opt orig cs c⟩
    unfold select_best_title
    rw [h]

/-- Witness for C9's selection property on a concrete two-candidate
response. -/
theorem C9_witness :
    ∃ b, b ∈ ("Alpha Beta".toList :: ["Gamma".toList]) ∧
      select_best_title ("* Alpha Beta\n* Gamma".toList)
          ("Beta house".toList) = b.take 100 ∧
      ∀ x ∈ ("Alpha Beta".toList :: ["Gamma".toList]),
        scoreTitle ("Beta house".toList) x <
            scoreTitle ("Beta house".toList) b ∨
          (scoreTitle ("Beta house".toList) x =
              scoreTitle ("Beta house".toList) b ∧
            b.length ≤ x.length) :=
  C9_select_best_title.2 _ _ _ _ (by decide)

/-! ## EnrichmentOrchestrator: `Command.handle`
(rewrite_properties.py 88–193)

Django machinery is embedded as explicit state: each listing's
environment supplies the outcome of the upsert, the four model-call
response sequences, and the three database writes; `transaction.atomic`
is modelled by discarding the whole write list when an exception escapes
the block, and the outer `try/except ... continue` by the per-listing
processed flag. -/

structure ListingEnv where
  upsertOk : Bool
  titleResp : Nat → HttpResp
  descResp : Nat → HttpResp
  summaryResp : Nat → HttpResp
  reviewResp : Nat → HttpResp
  saveOk : Bool
  summaryInsertOk : Bool
  ratingInsertOk : Bool

inductive DbWrite
  | listingUpdate (title description : List Char)
  | summaryInsert (summary : List Char)
  | ratingInsert (rating : ℚ) (review : List Char)
deriving DecidableEq

/-- One listing of `Command.handle`: steps 1–5 (upsert, title call +
`select_best_title`, description call, title/description save, summary
call + insert) run inside the transaction; step 6 requests and parses
the rating/review, where only a parse `ValueError` is caught (skipping
just the `PropertyRating` insert).  Returns the committed writes and
whether the listing counted as processed. -/
def processListing (env : ListingEnv) (originalTitle : List Char) :
    List DbWrite × Bool :=
  if !env.upsertOk then ([], false)
  else
    match (interact_with_gemini env.titleResp false .ctitle).1 with
    | .error _ => ([], false)
    | .ok titleText =>
      let newTitle := select_best_title titleText originalTitle
      match (interact_with_gemini env.descResp false .cdescription).1 with
      | .error _ => ([], false)
      | .ok desc =>
        if !env.saveOk then ([], false)
        else
          match (interact_with_gemini env.summaryResp false .csummary).1 with
          | .error _ => ([], false)
          | .ok summ =>
            if !env.summaryInsertOk then ([], false)
            else
              match (interact_with_gemini env.reviewResp false .creview).1 with
              | .error _ => ([], false)
              | .ok revText =>
                match parse_rating_review revText with
                | .error _ =>
                  ([.listingUpdate newTitle desc, .summaryInsert summ], true)
                | .ok (rating, review) =>
                  if !env.ratingInsertOk then ([], false)
                  else
                    ([.listingUpdate newTitle desc, .summaryInsert summ,
                      .ratingInsert rating review], true)

/-- The batch loop: every listing is processed independently; the first
component counts processed listings. -/
def processBatch : List (ListingEnv × List Char) → Nat × List (List DbWrite)
  | [] => (0, [])
  | (env, title) :: rest =>
    ((if (processListing env title).2 then 1 else 0) +
        (processBatch rest).1,
      (processListing env title).1 :: (processBatch rest).2)

/-- C8: any failure in steps 1–5 discards the listing's entire unit of
work (no write persists, the listing does not count as processed) while
the batch continues listing by listing; a rating/review parse failure in
step 6 keeps the Listing update and the SummaryRecord, skips only the
RatingRecord, and still counts the listing as processed. -/
theorem C8_per_listing_isolation :
    (∀ env orig,
        (env.upsertOk = false ∨
         (interact_with_gemini env.titleResp false .ctitle).1.isOk = false ∨
         (interact_with_gemini env.descResp false .cdescription).1.isOk = false ∨
         env.saveOk = false ∨
         (interact_with_gemini env.summaryResp false .csummary).1.isOk = false ∨
         env.summaryInsertOk = false) →
        processListing env orig = ([], false)) ∧
    (∀ env orig titleText desc summ revText e,
        env.upsertOk = true →
        (interact_with_gemini env.titleResp false .ctitle).1 = .ok titleText →
        (interact_with_gemini env.descResp false .cdescription).1 = .ok desc →
        env.saveOk = true →
        (interact_with_gemini env.summaryResp false .csummary).1 = .ok summ →
        env.summaryInsertOk = true →
        (interact_with_gemini env.reviewResp false .creview).1 = .ok revText →
        parse_rating_review revText = .error e →
        processListing env orig =
          ([.listingUpdate (select_best_title titleText orig) desc,
            .summaryInsert summ], true)) ∧
    (∀ l, (processBatch l).2 = l.map (fun p => (processListing p.1 p.2).1)) ∧
    (∀ env orig rest,
        (processBatch ((env, orig) :: rest)).1 =
          (if (processListing env orig).2 then 1 else 0) +
            (processBatch rest).1) := by
  refine ⟨fun env orig hdisj => ?_, ?_, fun l => ?_, fun env orig rest => rfl⟩
  · rcases hdisj with h | h | h | h | h | h
    · simp [processListing, h]
    · cases hu : env.upsertOk
      · simp [processListing, hu]
      · cases ht : (interact_with_gemini env.titleResp false .ctitle).1 with
        | error e => simp [processListing, hu, ht]
        | ok t => rw [ht] at h; simp [Except.isOk, Except.toBool] at h
    · cases hu : env.upsertOk
      · simp [processListing, hu]
      · cases ht : (interact_with_gemini env.titleResp false .ctitle).1 with
        | error e => simp [processListing, hu, ht]
        | ok t =>
          cases hd : (interact_with_gemini env.descResp false .cdescription).1 with
          | error e => simp [processListing, hu, ht, hd]
          | ok d => rw [hd] at h; simp [Except.isOk, Except.toBool] at h
    · cases hu : env.upsertOk
      · simp [processListing, hu]
      · cases ht : (interact_with_gemini env.titleResp false .ctitle).1 with
        | error e => simp [processListing, hu, ht]
        | ok t =>
          cases hd : (interact_with_gemini env.descResp false .cdescription).1 with
          | error e => simp [processListing, hu, ht, hd]
          | ok d => simp [processListing, hu, ht, hd, h]
    · cases hu : env.upsertOk
      · simp [processListing, hu]
      · cases ht : (interact_with_gemini env.titleResp false .ctitle).1 with
        | error e => simp [processListing, hu, ht]
        | ok t =>
          cases hd : (interact_with_gemini env.descResp false .cdescription).1 with
          | error e => simp [processListing, hu, ht, hd]
          | ok d =>
            cases hsv : env.saveOk
            · simp [processListing, hu, ht, hd, hsv]
            · cases hs : (interact_with_gemini env.summaryResp false .csummary).1 with
              | error e => simp [processListing, hu, ht, hd, hsv, hs]
              | ok s => rw [hs] at h; simp [Except.isOk, Except.toBool] at h
    · cases hu : env.upsertOk
      · simp [processListing, hu]
      · cases ht : (interact_with_gemini env.titleResp false .ctitle).1 with
        | error e => simp [processListing, hu, ht]
        | ok t =>
          cases hd : (interact_with_gemini env.descResp false .cdescription).1 with
          | error e => simp [processListing, hu, ht, hd]
          | ok d =>
            cases hsv : env.saveOk
            · simp [processListing, hu, ht, hd, hsv]
            · cases hs : (interact_with_gemini env.summaryResp false .csummary).1 with
              | error e => simp [processListing, hu, ht, hd, hsv, hs]
              | ok s => simp [processListing, hu, ht, hd, hsv, hs, h]
  · intro env orig titleText desc summ revText e hu ht hd hsv hs hins hr hp
    simp [processListing, hu, ht, hd, hsv, hs, hins, hr, hp]
  · induction l with
    | nil => rfl
    | cons p rest ih => simp [processBatch, ih]

/-- Concrete environment failing at step 1 (the upsert). -/
def envUpsertFail : ListingEnv :=
  ⟨false, fun _ => .netErr, fun _ => .netErr, fun _ => .netErr,
    fun _ => .netErr, true, true, true⟩

/-- Concrete environment succeeding through step 5 whose rating/review
response has no `Rating:` label. -/
def envParseFail : ListingEnv :=
  ⟨true, fun _ => HttpResp.http 200 (.goodBody ("**Lovely Cottage**".toList)),
    fun _ => HttpResp.http 200 (.goodBody ("A fine place.".toList)),
    fun _ => HttpResp.http 200 (.goodBody ("Summary text".toList)),
    fun _ => HttpResp.http 200 (.goodBody ("no labels here".toList)),
    true, true, true⟩

/-- Witness for C8's two per-listing rules on concrete environments. -/
theorem C8_witness :
    processListing envUpsertFail ("Old Hotel".toList) = ([], false) ∧
    processListing envParseFail ("Old Hotel".toList) =
      ([.listingUpdate
          (select_best_title ("**Lovely Cottage**".toList) ("Old Hotel".toList))
          ("A fine place.".toList),
        .summaryInsert ("Summary text".toList)], true) :=
  ⟨C8_per_listing_isolation.1 envUpsertFail _ (Or.inl rfl),
   C8_per_listing_isolation.2.1 envParseFail ("Old Hotel".toList)
     ("**Lovely Cottage**".toList) ("A fine place.".toList)
     ("Summary text".toList) ("no labels here".toList)
     ParseErr.noRating rfl (by decide) (by decide) rfl (by decide) rfl
     (by decide) (by decide)⟩

/-- C10 (implicit): a successful model call with `content_type='title'`
and the `extract_title` flag unset returns the raw model text completely
unmodified — no extraction, no truncation — and the orchestrator's
title-rewrite step passes exactly that raw text to
`select_best_title`. -/
theorem C10_title_raw_passthrough :
    (∀ t, postProcess false .ctitle t = .ok t) ∧
    (∀ resp t, resp 0 = HttpResp.http 200 (.goodBody t) →
        interact_with_gemini resp false .ctitle = (.ok t, [])) ∧
    (∀ env orig t nt d, env.titleResp 0 = HttpResp.http 200 (.goodBody t) →
        DbWrite.listingUpdate nt d ∈ (processListing env orig).1 →
        nt = select_best_title t orig) := by
  refine ⟨fun t => rfl, fun resp t h => ?_, fun env orig t nt d h hmem => ?_⟩
  · rw [interact_with_gemini_eq, gemini_attempts_success resp false .ctitle 4 0 t h]
    rfl
  · have htitle : (interact_with_gemini env.titleResp false .ctitle).1 = .ok t := by
      rw [interact_with_gemini_eq,
        gemini_attempts_success env.titleResp false .ctitle 4 0 t h]
      rfl
    cases hu : env.upsertOk
    · simp [processListing, hu] at hmem
    · cases hd : (interact_with_gemini env.descResp false .cdescription).1 with
      | error e => simp [processListing, hu, htitle, hd] at hmem
      | ok d2 =>
        cases hsv : env.saveOk
        · simp [processListing, hu, htitle, hd, hsv] at hmem
        · cases hs : (interact_with_gemini env.summaryResp false .csummary).1 with
          | error e => simp [processListing, hu, htitle, hd, hsv, hs] at hmem
          | ok s2 =>
            cases hins : env.summaryInsertOk
            · simp [processListing, hu, htitle, hd, hsv, hs, hins] at hmem
            · cases hr : (interact_with_gemini env.reviewResp false .creview).1 with
              | error e =>
                simp [processListing, hu, htitle, hd, hsv, hs, hins, hr] at hmem
              | ok rv =>
                cases hp : parse_rating_review rv with
                | error e =>
                  simp [processListing, hu, htitle, hd, hsv, hs, hins, hr,
                    hp] at hmem
                  exact hmem.1
                | ok rr =>
                  cases hri : env.ratingInsertOk
                  · simp [processListing, hu, htitle, hd, hsv, hs, hins, hr,
                      hp, hri] at hmem
                  · simp [processListing, hu, htitle, hd, hsv, hs, hins, hr,
                      hp, hri] at hmem
                    exact hmem.1

/-- Witness for C10's raw pass-through on a concrete over-length text. -/
theorem C10_witness :
    interact_with_gemini
        (fun _ => HttpResp.http 200 (.goodBody
          ("A raw title suggestion text that is deliberately much longer than any of the configured database length limits for titles, so no truncation may be applied to it anywhere".toList)))
        false .ctitle =
      (.ok ("A raw title suggestion text that is deliberately much longer than any of the configured database length limits for titles, so no truncation may be applied to it anywhere".toList), []) :=
  C10_title_raw_passthrough.2.1 _ _ rfl

end DjangoLLM
